import Mathlib

set_option maxHeartbeats 1000000

/-!
Verification development for the `structpath` crate (src/lib.rs): a shallow
embedding of its schema model, path matcher, serde-style serialization and
deserialization bridges, and path generation, together with theorems settling
the specification claims.

Modelling conventions:
* Rust `String`/`&str` values are Lean `String`s; character-level recursion
  works on `String.data`.
* Rust `HashMap` is modelled as an association list with insert-overwrite
  semantics (`hmInsert`); iteration order is the list order, a legitimate
  instance of the unspecified `HashMap` iteration order.
* Machine integers are `Nat`/`Int` with explicit range checks in the
  textual-parse functions, mirroring Rust `FromStr` overflow errors.
* `f32`/`f64` values, whose parsing/rendering the source delegates to Rust
  std (`str::parse`, `to_string`), are modelled abstractly: all definitions
  are parameterised by carrier types `α` (f32) and `β` (f64) and a `FloatOps`
  interface supplying their textual parse and render functions.
* A Rust panic is modelled as `Option.none` in functions that can panic.
-/

/-- Decidable equality of `Except` results, for concrete evaluation of the
embedded fallible operations. -/
instance {ε σ : Type} [DecidableEq ε] [DecidableEq σ] : DecidableEq (Except ε σ) := fun a b =>
  match a, b with
  | Except.ok x, Except.ok y =>
    if h : x = y then isTrue (by rw [h]) else isFalse (by intro hc; cases hc; exact h rfl)
  | Except.error x, Except.error y =>
    if h : x = y then isTrue (by rw [h]) else isFalse (by intro hc; cases hc; exact h rfl)
  | Except.ok _, Except.error _ => isFalse (by intro hc; cases hc)
  | Except.error _, Except.ok _ => isFalse (by intro hc; cases hc)

namespace Structpath

/-- SegmentType (src/lib.rs lines 42-57): the closed set of scalar kinds. -/
inductive SegmentType
  | F32 | F64
  | I8 | I16 | I32 | I64 | I128
  | U8 | U16 | U32 | U64 | U128
  | String
  deriving DecidableEq, Repr

/-- SegmentValue (lines 71-86): a scalar tagged with its kind. Signed kinds
carry `Int`, unsigned kinds carry `Nat`; the float payloads are the abstract
carriers `α` (f32) and `β` (f64). -/
inductive SegmentValue (α β : Type)
  | F32 (v : α)
  | F64 (v : β)
  | I8 (v : Int)
  | I16 (v : Int)
  | I32 (v : Int)
  | I64 (v : Int)
  | I128 (v : Int)
  | U8 (v : Nat)
  | U16 (v : Nat)
  | U32 (v : Nat)
  | U64 (v : Nat)
  | U128 (v : Nat)
  | String (v : String)
  deriving DecidableEq, Repr

/-- SegmentValueSchema (lines 62-66). -/
structure SegmentValueSchema where
  name : String
  segment_type : SegmentType
  deriving DecidableEq, Repr

/-- SegmentSchema (lines 94-98). -/
inductive SegmentSchema
  | Literal (lit : String)
  | Value (vs : SegmentValueSchema)
  deriving DecidableEq, Repr

/-- Schema (lines 103-106). -/
structure Schema where
  segments : List SegmentSchema
  deriving DecidableEq, Repr

/-- PathSchemaParseError (lines 109-118). -/
inductive PathSchemaParseError
  | SyntaxError (segment : String) (message : String)
  | UnrecognizedType (tag : String)
  deriving DecidableEq, Repr

/-- SerializerState (lines 698-704). -/
inductive SerializerState
  | Start
  | StructKey
  | StructValue (key : String)
  | End
  deriving DecidableEq, Repr

/-- DeserializerState (lines 342-349). -/
inductive DeserializerState (α β : Type)
  | Start
  | Map
  | MapKey (key : String)
  | MapValue (v : SegmentValue α β)
  | End
  deriving DecidableEq, Repr

/-- StructPathError (lines 239-270). The std parse errors are modelled as
carrying the malformed text. -/
inductive StructPathError (α β : Type)
  | IncorrectSegment (got : String) (expected : String)
  | ParseFloatError (text : String)
  | ParseIntError (text : String)
  | SerdeInternalError (msg : String)
  | Impossible
  | ExpectedType (expected : String) (got : SegmentValue α β)
  | NotSupported (what : String)
  | MissingField (name : String)
  | InvalidSerializerState (expected : String) (got : SerializerState)
  | InvalidDeserializerState (expected : String) (got : DeserializerState α β)
  deriving DecidableEq, Repr

/-- Textual parse/render interface for the two float kinds, whose
implementation the source takes from Rust std. -/
structure FloatOps (α β : Type) where
  parseF32 : String → Option α
  parseF64 : String → Option β
  renderF32 : α → String
  renderF64 : β → String

/-- A concrete trivial instantiation of `FloatOps` over `Unit`, used for
concrete evaluations that involve no float-typed segments. -/
def trivialFloatOps : FloatOps Unit Unit :=
  ⟨fun _ => none, fun _ => none, fun _ => "", fun _ => ""⟩

/-! ## Association-list model of `HashMap` -/

variable {γ : Type}

/-- `HashMap::insert`: replace an existing binding in place, else append. -/
def hmInsert (k : String) (v : γ) : List (String × γ) → List (String × γ)
  | [] => [(k, v)]
  | (k₁, v₁) :: rest => if k = k₁ then (k, v) :: rest else (k₁, v₁) :: hmInsert k v rest

/-- `HashMap::get`. -/
def hmLookup (k : String) : List (String × γ) → Option γ
  | [] => none
  | (k₁, v₁) :: rest => if k = k₁ then some v₁ else hmLookup k rest

/-- `HashMap::remove`, returning the removed value and the rest of the map. -/
def hmRemove (k : String) : List (String × γ) → Option (γ × List (String × γ))
  | [] => none
  | (k₁, v₁) :: rest =>
    if k = k₁ then some (v₁, rest)
    else
      match hmRemove k rest with
      | some (v, rest₁) => some (v, (k₁, v₁) :: rest₁)
      | none => none

/-! ## Rust `str::split` on a single separator character -/

/-- Model of Rust `str::split(sep)` on character lists: always returns at
least one (possibly empty) token. -/
def splitCharAux (sep : Char) : List Char → List (List Char)
  | [] => [[]]
  | c :: cs =>
    if c = sep then [] :: splitCharAux sep cs
    else
      match splitCharAux sep cs with
      | [] => [[c]]
      | t :: ts => (c :: t) :: ts

/-- Rust `path.split("/")` as a list of `String` tokens. -/
def splitSlash (s : String) : List String := (splitCharAux '/' s.data).map String.mk

/-- Inverse of `splitCharAux sep`: rejoin tokens with the separator. -/
def joinChar (sep : Char) : List (List Char) → List Char
  | [] => []
  | [t] => t
  | t :: ts => t ++ sep :: joinChar sep ts

/-! ## Rust integer `FromStr` -/

/-- Accumulate decimal digits; fails on a non-digit. -/
def digitsToNatAux : Nat → List Char → Option Nat
  | acc, [] => some acc
  | acc, c :: cs => if c.isDigit then digitsToNatAux (acc * 10 + (c.toNat - 48)) cs else none

/-- A nonempty all-digit string to its value. -/
def digitsToNat : List Char → Option Nat
  | [] => none
  | cs => digitsToNatAux 0 cs

/-- Rust unsigned-integer `FromStr`: optional leading `+`, one or more
decimal digits, overflow (`> maxVal`) is an error. -/
def parseUnsigned (maxVal : Nat) (s : String) : Option Nat :=
  let body :=
    match s.data with
    | '+' :: rest => digitsToNat rest
    | l => digitsToNat l
  match body with
  | some n => if n ≤ maxVal then some n else none
  | none => none

/-- Rust signed-integer `FromStr`: optional leading `+` or `-`, one or more
decimal digits, out-of-range is an error. -/
def parseSigned (minVal maxVal : Int) (s : String) : Option Int :=
  match s.data with
  | '-' :: rest =>
    match digitsToNat rest with
    | some n => if minVal ≤ -(n : Int) then some (-(n : Int)) else none
    | none => none
  | l =>
    let body :=
      match l with
      | '+' :: rest => digitsToNat rest
      | l₁ => digitsToNat l₁
    match body with
    | some n => if (n : Int) ≤ maxVal then some ((n : Int)) else none
    | none => none

/-! ## Schema builder (lines 155-236) -/

/-- `Schema::new` (lines 157-159). -/
def Schema.new : Schema := ⟨[]⟩

/-- `Schema::literal` (lines 213-216). -/
def Schema.literal (s : Schema) (lit : String) : Schema :=
  ⟨s.segments ++ [SegmentSchema.Literal lit]⟩

/-- `Schema::value` (lines 222-225). -/
def Schema.value (s : Schema) (name : String) (t : SegmentType) : Schema :=
  ⟨s.segments ++ [SegmentSchema.Value ⟨name, t⟩]⟩

/-! ## The DSL: `Schema::path` (lines 162-208) -/

/-- The type-tag match of `Schema::path` (lines 175-192). -/
def segmentTypeOfTag : String → Option SegmentType
  | "f32" => some SegmentType.F32
  | "f64" => some SegmentType.F64
  | "u8" => some SegmentType.U8
  | "u16" => some SegmentType.U16
  | "u32" => some SegmentType.U32
  | "u64" => some SegmentType.U64
  | "u128" => some SegmentType.U128
  | "i8" => some SegmentType.I8
  | "i16" => some SegmentType.I16
  | "i32" => some SegmentType.I32
  | "i64" => some SegmentType.I64
  | "i128" => some SegmentType.I128
  | "String" => some SegmentType.String
  | _ => none

/-- One iteration of the `Schema::path` loop (lines 165-205). `none` models
the Rust panic in the byte slice `&segment[0..1]`: it panics when the segment
is empty, and also when the first character occupies more than one byte
(non-ASCII), since byte 1 is then not a character boundary. -/
def parseSchemaSegment (segment : String) : Option (Except PathSchemaParseError SegmentSchema) :=
  match segment.data with
  | [] => none
  | c :: _ =>
    if 128 ≤ c.toNat then none
    else if c = '<' then
      let no_brackets : List Char := (segment.data.drop 1).takeWhile (fun c₁ => c₁ ≠ '>')
      match splitCharAux ':' no_brackets with
      | [nameC] =>
        some (Except.ok (SegmentSchema.Value ⟨String.mk nameC, SegmentType.String⟩))
      | [nameC, tagC] =>
        match segmentTypeOfTag (String.mk tagC) with
        | some t => some (Except.ok (SegmentSchema.Value ⟨String.mk nameC, t⟩))
        | none => some (Except.error (PathSchemaParseError.UnrecognizedType (String.mk tagC)))
      | _ =>
        some (Except.error (PathSchemaParseError.SyntaxError segment
          "Expected at most one ':' in path segment"))
    else
      some (Except.ok (SegmentSchema.Literal segment))

/-- The `Schema::path` loop over the segments after the first split token. -/
def schemaPathSegments : List String → Option (Except PathSchemaParseError (List SegmentSchema))
  | [] => some (Except.ok [])
  | seg :: rest =>
    match parseSchemaSegment seg with
    | none => none
    | some (Except.error e) => some (Except.error e)
    | some (Except.ok ss) =>
      match schemaPathSegments rest with
      | none => none
      | some (Except.error e) => some (Except.error e)
      | some (Except.ok l) => some (Except.ok (ss :: l))

/-- `Schema::path` (lines 162-208): split the pattern on `/`, skip the first
token, process each remaining token. `none` models a panic. -/
def Schema.path (pattern : String) : Option (Except PathSchemaParseError Schema) :=
  match schemaPathSegments ((splitSlash pattern).drop 1) with
  | none => none
  | some (Except.error e) => some (Except.error e)
  | some (Except.ok l) => some (Except.ok ⟨l⟩)

/-! ## The path matcher: `parse_path_generic` (lines 284-339) -/

variable {α β : Type}

/-- The per-type value parsing of the `SegmentSchema::Value` arm
(lines 294-334): `segment.parse::<T>()?` wrapped into a `SegmentValue`. -/
def parseValueAs (F : FloatOps α β) : SegmentType → String → Except (StructPathError α β) (SegmentValue α β)
  | SegmentType.F32, seg =>
    match F.parseF32 seg with
    | some v => Except.ok (SegmentValue.F32 v)
    | none => Except.error (StructPathError.ParseFloatError seg)
  | SegmentType.F64, seg =>
    match F.parseF64 seg with
    | some v => Except.ok (SegmentValue.F64 v)
    | none => Except.error (StructPathError.ParseFloatError seg)
  | SegmentType.I8, seg =>
    match parseSigned (-128) 127 seg with
    | some v => Except.ok (SegmentValue.I8 v)
    | none => Except.error (StructPathError.ParseIntError seg)
  | SegmentType.I16, seg =>
    match parseSigned (-32768) 32767 seg with
    | some v => Except.ok (SegmentValue.I16 v)
    | none => Except.error (StructPathError.ParseIntError seg)
  | SegmentType.I32, seg =>
    match parseSigned (-2147483648) 2147483647 seg with
    | some v => Except.ok (SegmentValue.I32 v)
    | none => Except.error (StructPathError.ParseIntError seg)
  | SegmentType.I64, seg =>
    match parseSigned (-9223372036854775808) 9223372036854775807 seg with
    | some v => Except.ok (SegmentValue.I64 v)
    | none => Except.error (StructPathError.ParseIntError seg)
  | SegmentType.I128, seg =>
    match parseSigned (-170141183460469231731687303715884105728)
        170141183460469231731687303715884105727 seg with
    | some v => Except.ok (SegmentValue.I128 v)
    | none => Except.error (StructPathError.ParseIntError seg)
  | SegmentType.U8, seg =>
    match parseUnsigned 255 seg with
    | some v => Except.ok (SegmentValue.U8 v)
    | none => Except.error (StructPathError.ParseIntError seg)
  | SegmentType.U16, seg =>
    match parseUnsigned 65535 seg with
    | some v => Except.ok (SegmentValue.U16 v)
    | none => Except.error (StructPathError.ParseIntError seg)
  | SegmentType.U32, seg =>
    match parseUnsigned 4294967295 seg with
    | some v => Except.ok (SegmentValue.U32 v)
    | none => Except.error (StructPathError.ParseIntError seg)
  | SegmentType.U64, seg =>
    match parseUnsigned 18446744073709551615 seg with
    | some v => Except.ok (SegmentValue.U64 v)
    | none => Except.error (StructPathError.ParseIntError seg)
  | SegmentType.U128, seg =>
    match parseUnsigned 340282366920938463463374607431768211455 seg with
    | some v => Except.ok (SegmentValue.U128 v)
    | none => Except.error (StructPathError.ParseIntError seg)
  | SegmentType.String, seg => Except.ok (SegmentValue.String seg)

/-- One iteration of the `parse_path_generic` loop body (lines 287-336):
`ok none` means a matching literal (nothing inserted); `ok (some (n, v))`
means a parsed value to insert under name `n`. -/
def checkSegment (F : FloatOps α β) :
    SegmentSchema → String → Except (StructPathError α β) (Option (String × SegmentValue α β))
  | SegmentSchema.Literal lit, seg =>
    if seg = lit then Except.ok none
    else Except.error (StructPathError.IncorrectSegment seg lit)
  | SegmentSchema.Value vs, seg =>
    (parseValueAs F vs.segment_type seg).map (fun v => some (vs.name, v))

/-- The `parse_path_generic` loop over the zipped (segment, descriptor)
pairs, accumulating the field map. -/
def parseSegments (F : FloatOps α β) :
    List (String × SegmentSchema) → List (String × SegmentValue α β) →
      Except (StructPathError α β) (List (String × SegmentValue α β))
  | [], acc => Except.ok acc
  | (seg, ss) :: rest, acc =>
    match checkSegment F ss seg with
    | Except.ok none => parseSegments F rest acc
    | Except.ok (some (n, v)) => parseSegments F rest (hmInsert n v acc)
    | Except.error e => Except.error e

/-- `parse_path_generic` (lines 284-339): split the path on `/`, skip the
first token, zip positionally against the schema descriptors. -/
def parse_path_generic (F : FloatOps α β) (path : String) (schema : Schema) :
    Except (StructPathError α β) (List (String × SegmentValue α β)) :=
  parseSegments F (((splitSlash path).drop 1).zip schema.segments) []

/-! ## Serialization bridge (lines 697-1116) -/

/-- Serializer (lines 706-709): the output map and the state machine state. -/
structure Serializer where
  serialized_values : List (String × String)
  state : SerializerState
  deriving DecidableEq, Repr

/-- Rendering a scalar to its segment text, as the `serialize_<type>`
methods do with `to_string` (lines 727-911): base-10 for integers (with sign
for signed kinds), text verbatim, floats through the abstract interface. -/
def renderSegmentValue (F : FloatOps α β) : SegmentValue α β → String
  | SegmentValue.F32 v => F.renderF32 v
  | SegmentValue.F64 v => F.renderF64 v
  | SegmentValue.I8 v => toString v
  | SegmentValue.I16 v => toString v
  | SegmentValue.I32 v => toString v
  | SegmentValue.I64 v => toString v
  | SegmentValue.I128 v => toString v
  | SegmentValue.U8 v => toString v
  | SegmentValue.U16 v => toString v
  | SegmentValue.U32 v => toString v
  | SegmentValue.U64 v => toString v
  | SegmentValue.U128 v => toString v
  | SegmentValue.String v => v

/-- `serialize_struct` (lines 991-998): sets the state to `StructKey` and
returns successfully, with no check of the current state. -/
def serializeStructM (s : Serializer) : Except (StructPathError α β) Serializer :=
  Except.ok ⟨s.serialized_values, SerializerState.StructKey⟩

/-- A scalar `serialize_<type>` call (lines 727-911): legal only from
`StructValue(key)`; inserts the rendered text under `key`. -/
def serializeScalar (F : FloatOps α β) (v : SegmentValue α β) (s : Serializer) :
    Except (StructPathError α β) Serializer :=
  match s.state with
  | SerializerState.StructValue key =>
    Except.ok ⟨hmInsert key (renderSegmentValue F v) s.serialized_values, SerializerState.StructKey⟩
  | st => Except.error (StructPathError.InvalidSerializerState "StructValue" st)

/-- `SerializeStruct::serialize_field` (lines 1085-1097): legal only from
`StructKey`; moves to `StructValue(key)` and serializes the value. -/
def serializeField (F : FloatOps α β) (key : String) (v : SegmentValue α β) (s : Serializer) :
    Except (StructPathError α β) Serializer :=
  match s.state with
  | SerializerState.StructKey => serializeScalar F v ⟨s.serialized_values, SerializerState.StructValue key⟩
  | st => Except.error (StructPathError.InvalidSerializerState "StructKey" st)

/-- `SerializeStruct::end` (lines 1099-1102). -/
def serializeEnd (s : Serializer) : Serializer :=
  ⟨s.serialized_values, SerializerState.End⟩

/-- Serialization of a flat record of scalar fields: `serialize_struct`,
then `serialize_field` for each field in the record's own order, then `end`.
This is the sequence serde's derived `Serialize` performs in
`parameters.serialize(&mut serializer)` (line 1124). -/
def serializeRecord (F : FloatOps α β) (fields : List (String × SegmentValue α β)) :
    Except (StructPathError α β) (List (String × String)) := do
  let s₁ ← serializeStructM (⟨[], SerializerState.Start⟩ : Serializer)
  let s₂ ← fields.foldlM (fun s kv => serializeField F kv.1 kv.2 s) s₁
  Except.ok (serializeEnd s₂).serialized_values

/-- The assembly loop of `generate_path` (lines 1125-1135): walk the
descriptors, appending `/literal` or `/map[name]`; a missing name is a
`MissingField` error. -/
def assemblePath (m : List (String × String)) :
    List SegmentSchema → String → Except (StructPathError α β) String
  | [], acc => Except.ok acc
  | SegmentSchema.Literal lit :: rest, acc => assemblePath m rest (acc ++ "/" ++ lit)
  | SegmentSchema.Value vs :: rest, acc =>
    match hmLookup vs.name m with
    | some v => assemblePath m rest (acc ++ "/" ++ v)
    | none => Except.error (StructPathError.MissingField vs.name)

/-- `generate_path` (lines 1119-1136): serialize the record into a
name-to-string map, then assemble the path along the schema. -/
def generate_path (F : FloatOps α β) (fields : List (String × SegmentValue α β)) (schema : Schema) :
    Except (StructPathError α β) String := do
  let m ← serializeRecord F fields
  assemblePath m schema.segments ""

/-! ## Deserialization bridge (lines 341-695) -/

/-- Deserializer (lines 351-354). -/
structure Deserializer (α β : Type) where
  generic_parsed_path : List (String × SegmentValue α β)
  state : DeserializerState α β
  deriving DecidableEq, Repr

/-- `deserialize_map` / `deserialize_struct` (lines 606-619): entering the
record, legal only from `Start`. -/
def deserializeMapEntry (d : Deserializer α β) : Except (StructPathError α β) (Deserializer α β) :=
  match d.state with
  | DeserializerState.Start => Except.ok ⟨d.generic_parsed_path, DeserializerState.Map⟩
  | st => Except.error (StructPathError.InvalidDeserializerState "Start" st)

/-- `next_key_seed` (lines 643-667): from `Map`, pick the first remaining
key (state to `MapKey`), or signal exhaustion (state to `End`). Returns the
key made available to the caller's seed, `none` meaning "no more fields". -/
def nextKeySeed (d : Deserializer α β) :
    Except (StructPathError α β) (Option String × Deserializer α β) :=
  match d.state with
  | DeserializerState.Map =>
    match d.generic_parsed_path.head? with
    | some (k, _) => Except.ok (some k, ⟨d.generic_parsed_path, DeserializerState.MapKey k⟩)
    | none => Except.ok (none, ⟨d.generic_parsed_path, DeserializerState.End⟩)
  | st => Except.error (StructPathError.InvalidDeserializerState "Map" st)

/-- `deserialize_identifier` (lines 625-633): hand the held key to the
visitor; no state change. -/
def deserializeIdentifier (d : Deserializer α β) : Except (StructPathError α β) String :=
  match d.state with
  | DeserializerState.MapKey key => Except.ok key
  | st => Except.error (StructPathError.InvalidDeserializerState "MapKey" st)

/-- `next_value_seed` (lines 669-682): from `MapKey(key)`, remove the entry
at `key` and move to `MapValue`; the defensive branch when the key is absent
is the `Impossible` error. -/
def nextValueSeed (d : Deserializer α β) : Except (StructPathError α β) (Deserializer α β) :=
  match d.state with
  | DeserializerState.MapKey key =>
    match hmRemove key d.generic_parsed_path with
    | some (v, rest) => Except.ok ⟨rest, DeserializerState.MapValue v⟩
    | none => Except.error StructPathError.Impossible
  | st => Except.error (StructPathError.InvalidDeserializerState "MapValue" st)

/-- The 13 scalar `deserialize_<type>` methods (lines 367-568): consume the
held `MapValue` at the requested scalar type, returning the `SegmentValue`
handed to the visitor and moving back to `Map`. The `U16` and `U32` arms
match `SegmentValue::U64` and report `"u64"`, exactly as the source does
(lines 457-485). -/
def deserializeScalar (t : SegmentType) (d : Deserializer α β) :
    Except (StructPathError α β) (SegmentValue α β × Deserializer α β) :=
  match d.state with
  | DeserializerState.MapValue sv =>
    match t, sv with
    | SegmentType.F32, SegmentValue.F32 v =>
      Except.ok (SegmentValue.F32 v, ⟨d.generic_parsed_path, DeserializerState.Map⟩)
    | SegmentType.F32, v => Except.error (StructPathError.ExpectedType "f32" v)
    | SegmentType.F64, SegmentValue.F64 v =>
      Except.ok (SegmentValue.F64 v, ⟨d.generic_parsed_path, DeserializerState.Map⟩)
    | SegmentType.F64, v => Except.error (StructPathError.ExpectedType "f64" v)
    | SegmentType.I8, SegmentValue.I8 v =>
      Except.ok (SegmentValue.I8 v, ⟨d.generic_parsed_path, DeserializerState.Map⟩)
    | SegmentType.I8, v => Except.error (StructPathError.ExpectedType "i8" v)
    | SegmentType.I16, SegmentValue.I16 v =>
      Except.ok (SegmentValue.I16 v, ⟨d.generic_parsed_path, DeserializerState.Map⟩)
    | SegmentType.I16, v => Except.error (StructPathError.ExpectedType "i16" v)
    | SegmentType.I32, SegmentValue.I32 v =>
      Except.ok (SegmentValue.I32 v, ⟨d.generic_parsed_path, DeserializerState.Map⟩)
    | SegmentType.I32, v => Except.error (StructPathError.ExpectedType "i32" v)
    | SegmentType.I64, SegmentValue.I64 v =>
      Except.ok (SegmentValue.I64 v, ⟨d.generic_parsed_path, DeserializerState.Map⟩)
    | SegmentType.I64, v => Except.error (StructPathError.ExpectedType "i64" v)
    | SegmentType.I128, SegmentValue.I128 v =>
      Except.ok (SegmentValue.I128 v, ⟨d.generic_parsed_path, DeserializerState.Map⟩)
    | SegmentType.I128, v => Except.error (StructPathError.ExpectedType "i128" v)
    | SegmentType.U8, SegmentValue.U8 v =>
      Except.ok (SegmentValue.U8 v, ⟨d.generic_parsed_path, DeserializerState.Map⟩)
    | SegmentType.U8, v => Except.error (StructPathError.ExpectedType "u8" v)
    | SegmentType.U16, SegmentValue.U64 v =>
      Except.ok (SegmentValue.U64 v, ⟨d.generic_parsed_path, DeserializerState.Map⟩)
    | SegmentType.U16, v => Except.error (StructPathError.ExpectedType "u64" v)
    | SegmentType.U32, SegmentValue.U64 v =>
      Except.ok (SegmentValue.U64 v, ⟨d.generic_parsed_path, DeserializerState.Map⟩)
    | SegmentType.U32, v => Except.error (StructPathError.ExpectedType "u64" v)
    | SegmentType.U64, SegmentValue.U64 v =>
      Except.ok (SegmentValue.U64 v, ⟨d.generic_parsed_path, DeserializerState.Map⟩)
    | SegmentType.U64, v => Except.error (StructPathError.ExpectedType "u64" v)
    | SegmentType.U128, SegmentValue.U128 v =>
      Except.ok (SegmentValue.U128 v, ⟨d.generic_parsed_path, DeserializerState.Map⟩)
    | SegmentType.U128, v => Except.error (StructPathError.ExpectedType "u128" v)
    | SegmentType.String, SegmentValue.String v =>
      Except.ok (SegmentValue.String v, ⟨d.generic_parsed_path, DeserializerState.Map⟩)
    | SegmentType.String, v => Except.error (StructPathError.ExpectedType "String" v)
  | st => Except.error (StructPathError.InvalidDeserializerState "MapValue" st)

/-- Deserializer states reachable from a fresh deserializer (as built by
`parse_path`, lines 688-695) by any sequence of successful bridge calls, in
any order a `Deserialize` implementation might issue them. Failing calls
leave the state unchanged, so closure under successful calls suffices. -/
inductive DReach : Deserializer α β → Prop
  | init (m : List (String × SegmentValue α β)) : DReach ⟨m, DeserializerState.Start⟩
  | stepMap {d d₁ : Deserializer α β} : DReach d → deserializeMapEntry d = Except.ok d₁ → DReach d₁
  | stepKey {d d₁ : Deserializer α β} {o : Option String} :
      DReach d → nextKeySeed d = Except.ok (o, d₁) → DReach d₁
  | stepValue {d d₁ : Deserializer α β} : DReach d → nextValueSeed d = Except.ok d₁ → DReach d₁
  | stepScalar {d d₁ : Deserializer α β} {t : SegmentType} {v : SegmentValue α β} :
      DReach d → deserializeScalar t d = Except.ok (v, d₁) → DReach d₁

/-! ## Auxiliary definitions used by the theorem statements -/

/-- Whether an embedded fallible computation succeeded. -/
def isOkE {ε σ : Type} : Except ε σ → Bool
  | Except.ok _ => true
  | Except.error _ => false

/-- The field names demanded by the `Value` descriptors of a descriptor
list, in order. -/
def valueNames : List SegmentSchema → List String
  | [] => []
  | SegmentSchema.Literal _ :: rest => valueNames rest
  | SegmentSchema.Value vs :: rest => vs.name :: valueNames rest

/-- A pattern token that `Schema::path` can slice without panicking: it is
nonempty and its first character is a single UTF-8 byte. -/
def asciiHeaded (s : String) : Bool :=
  match s.data with
  | [] => false
  | c :: _ => decide (c.toNat < 128)

/-- A (segment, descriptor) pair matches canonically: a literal descriptor
equals the segment text, and a value descriptor parses the segment at its
declared type to a value whose rendering reproduces the segment text (the
claim's "canonical textual form" proviso). -/
def MatchCanon (F : FloatOps α β) : String × SegmentSchema → Prop
  | (seg, SegmentSchema.Literal lit) => seg = lit
  | (seg, SegmentSchema.Value vs) =>
    ∃ v, parseValueAs F vs.segment_type seg = Except.ok v ∧ renderSegmentValue F v = seg

/-- The concatenation `"/" ++ s₁ ++ "/" ++ s₂ ++ ...` of a list of segment
texts, the canonical shape of a generated path. -/
def slashConcat : List String → String
  | [] => ""
  | s :: rest => "/" ++ s ++ slashConcat rest

/-- Spec-side description of the generate output (spec section 4.5): walk
the descriptors in order, appending `/` plus the literal text for a Literal
descriptor and `/` plus the rendered value looked up by name for a Value
descriptor. Used to compare `generate_path` against the spec's words. -/
def specAssembledPath (m : List (String × String)) : List SegmentSchema → String
  | [] => ""
  | SegmentSchema.Literal lit :: rest => "/" ++ lit ++ specAssembledPath m rest
  | SegmentSchema.Value vs :: rest =>
    "/" ++ ((hmLookup vs.name m).getD "") ++ specAssembledPath m rest

/-! ## Lemmas: association-list map -/

theorem hmLookup_hmInsert (k n : String) (v : γ) (l : List (String × γ)) :
    hmLookup n (hmInsert k v l) = if n = k then some v else hmLookup n l := by
  induction l with
  | nil => simp [hmInsert, hmLookup]
  | cons kv rest ih =>
    obtain ⟨k₁, v₁⟩ := kv
    by_cases hk : k = k₁
    · subst hk
      by_cases hn : n = k <;> simp [hmInsert, hmLookup, hn]
    · by_cases hn : n = k₁
      · subst hn
        simp [hmInsert, hmLookup, hk, Ne.symm hk]
      · simp [hmInsert, hmLookup, hk, hn, ih]

theorem hmInsert_keys_subset (k n : String) (v : γ) (l : List (String × γ))
    (h : n ∈ (hmInsert k v l).map Prod.fst) : n = k ∨ n ∈ l.map Prod.fst := by
  induction l with
  | nil =>
    simp only [hmInsert, List.map_cons, List.map_nil, List.mem_singleton] at h
    exact Or.inl h
  | cons kv rest ih =>
    obtain ⟨k₁, v₁⟩ := kv
    simp only [hmInsert] at h
    by_cases hk : k = k₁
    · rw [if_pos hk] at h
      simp only [List.map_cons, List.mem_cons] at h
      rcases h with h | h
      · exact Or.inl h
      · exact Or.inr (by rw [List.map_cons]; exact List.mem_cons_of_mem _ h)
    · rw [if_neg hk] at h
      simp only [List.map_cons, List.mem_cons] at h
      rcases h with h | h
      · exact Or.inr (by rw [List.map_cons, h]; exact List.mem_cons_self _ _)
      · rcases ih h with h₁ | h₁
        · exact Or.inl h₁
        · exact Or.inr (by rw [List.map_cons]; exact List.mem_cons_of_mem _ h₁)

theorem hmInsert_nodup_keys (k : String) (v : γ) (l : List (String × γ))
    (h : (l.map Prod.fst).Nodup) : ((hmInsert k v l).map Prod.fst).Nodup := by
  induction l with
  | nil => simp [hmInsert]
  | cons kv rest ih =>
    obtain ⟨k₁, v₁⟩ := kv
    simp only [List.map_cons, List.nodup_cons] at h
    by_cases hk : k = k₁
    · subst hk
      simpa [hmInsert] using h
    · simp only [hmInsert, if_neg hk, List.map_cons, List.nodup_cons]
      refine ⟨fun hmem => ?_, ih h.2⟩
      rcases hmInsert_keys_subset k k₁ v rest hmem with h₁ | h₁
      · exact hk (h₁.symm)
      · exact h.1 h₁

theorem hmRemove_isSome_of_lookup (k : String) (l : List (String × γ))
    (h : (hmLookup k l).isSome) : (hmRemove k l).isSome := by
  induction l with
  | nil => simp [hmLookup] at h
  | cons kv rest ih =>
    obtain ⟨k₁, v₁⟩ := kv
    by_cases hk : k = k₁
    · simp [hmRemove, hk]
    · simp only [hmLookup, if_neg hk] at h
      have := ih h
      simp only [hmRemove, if_neg hk]
      match hrem : hmRemove k rest with
      | some (v, rest₁) => simp
      | none => rw [hrem] at this; simp at this

theorem hmLookup_foldInsert_not_mem (ps : List (String × γ)) (acc : List (String × γ))
    (n : String) (h : n ∉ ps.map Prod.fst) :
    hmLookup n (ps.foldl (fun a kv => hmInsert kv.1 kv.2 a) acc) = hmLookup n acc := by
  induction ps generalizing acc with
  | nil => rfl
  | cons kv rest ih =>
    obtain ⟨k, v⟩ := kv
    simp only [List.map_cons, List.mem_cons, not_or] at h
    simp only [List.foldl_cons]
    rw [ih _ h.2, hmLookup_hmInsert, if_neg h.1]

theorem hmLookup_foldInsert (ps : List (String × γ)) (acc : List (String × γ))
    (n : String) (h : (ps.map Prod.fst).Nodup) :
    hmLookup n (ps.foldl (fun a kv => hmInsert kv.1 kv.2 a) acc) =
      match hmLookup n ps with
      | some v => some v
      | none => hmLookup n acc := by
  induction ps generalizing acc with
  | nil => rfl
  | cons kv rest ih =>
    obtain ⟨k, v⟩ := kv
    simp only [List.map_cons, List.nodup_cons] at h
    simp only [List.foldl_cons]
    by_cases hn : n = k
    · subst hn
      rw [hmLookup_foldInsert_not_mem rest _ n h.1, hmLookup_hmInsert, if_pos rfl]
      simp [hmLookup]
    · rw [ih _ h.2]
      cases hrest : hmLookup n rest with
      | some v₁ => simp [hmLookup, hn, hrest]
      | none => simp [hmLookup, hn, hrest, hmLookup_hmInsert]

theorem hmLookup_map_render (f : γ → δ) (l : List (String × γ)) (n : String) :
    hmLookup n (l.map (fun kv => (kv.1, f kv.2))) = Option.map f (hmLookup n l) := by
  induction l with
  | nil => rfl
  | cons kv rest ih =>
    obtain ⟨k, v⟩ := kv
    by_cases hn : n = k <;> simp [hmLookup, hn, ih]

/-! ## Lemmas: character splitting -/

theorem splitCharAux_ne_nil (sep : Char) (l : List Char) : splitCharAux sep l ≠ [] := by
  cases l with
  | nil => simp [splitCharAux]
  | cons c cs =>
    by_cases hc : c = sep
    · simp [splitCharAux, hc]
    · simp only [splitCharAux, if_neg hc]
      cases h : splitCharAux sep cs with
      | nil => simp
      | cons t ts => simp

theorem splitCharAux_cons_neg (sep c : Char) (cs : List Char) (hc : ¬c = sep) :
    splitCharAux sep (c :: cs) =
      match splitCharAux sep cs with
      | [] => [[c]]
      | t :: ts => (c :: t) :: ts := by
  simp [splitCharAux, hc]

theorem splitCharAux_append (sep : Char) (a b : List Char) :
    splitCharAux sep (a ++ sep :: b) = splitCharAux sep a ++ splitCharAux sep b := by
  induction a with
  | nil => simp [splitCharAux]
  | cons c a' ih =>
    by_cases hc : c = sep
    · simp [splitCharAux, hc, ih]
    · rw [List.cons_append, splitCharAux_cons_neg sep c _ hc, splitCharAux_cons_neg sep c a' hc, ih]
      cases h : splitCharAux sep a' with
      | nil => exact absurd h (splitCharAux_ne_nil sep a')
      | cons t ts => simp

theorem splitCharAux_no_sep (sep : Char) (l : List Char) (h : sep ∉ l) :
    splitCharAux sep l = [l] := by
  induction l with
  | nil => rfl
  | cons c cs ih =>
    simp only [List.mem_cons, not_or] at h
    simp only [splitCharAux, if_neg (Ne.symm h.1)]
    rw [ih h.2]

theorem joinChar_splitCharAux (sep : Char) (l : List Char) :
    joinChar sep (splitCharAux sep l) = l := by
  induction l with
  | nil => rfl
  | cons c cs ih =>
    by_cases hc : c = sep
    · subst hc
      simp only [splitCharAux, if_pos rfl]
      cases h : splitCharAux c cs with
      | nil => exact absurd h (splitCharAux_ne_nil c cs)
      | cons t ts =>
        rw [h] at ih
        simpa [joinChar] using congrArg (fun r => c :: r) ih
    · rw [splitCharAux_cons_neg sep c cs hc]
      cases h : splitCharAux sep cs with
      | nil => exact absurd h (splitCharAux_ne_nil sep cs)
      | cons t ts =>
        rw [h] at ih
        cases ts with
        | nil =>
          simp only [joinChar] at ih
          simp [joinChar, ih]
        | cons t₁ ts₁ =>
          simp only [joinChar, List.cons_append] at ih ⊢
          exact congrArg (fun r => c :: r) ih

/-! ## Lemmas: list zipping -/

theorem zip_take_right {σ τ : Type} (l₁ : List σ) (l₂ : List τ) :
    l₁.zip (l₂.take l₁.length) = l₁.zip l₂ := by
  induction l₁ generalizing l₂ with
  | nil => simp
  | cons x l₁ ih =>
    cases l₂ with
    | nil => simp
    | cons y l₂ => simp [List.zip_cons_cons, ih]

theorem zip_append_left {σ τ : Type} (l₁ extra : List σ) (l₂ : List τ)
    (h : l₂.length ≤ l₁.length) : (l₁ ++ extra).zip l₂ = l₁.zip l₂ := by
  induction l₁ generalizing l₂ with
  | nil =>
    cases l₂ with
    | nil => simp
    | cons y l₂ => simp at h
  | cons x l₁ ih =>
    cases l₂ with
    | nil => simp
    | cons y l₂ =>
      simp only [List.length_cons, Nat.succ_le_succ_iff] at h
      simp [List.zip_cons_cons, ih l₂ h]

/-! ## Lemmas: the matcher loop -/

theorem parseSegments_append_error (F : FloatOps α β) (pre : List (String × SegmentSchema))
    (seg : String) (ss : SegmentSchema) (post : List (String × SegmentSchema))
    (acc : List (String × SegmentValue α β)) (e : StructPathError α β)
    (hok : ∀ p ∈ pre, isOkE (checkSegment F p.2 p.1) = true)
    (hbad : checkSegment F ss seg = Except.error e) :
    parseSegments F (pre ++ (seg, ss) :: post) acc = Except.error e := by
  induction pre generalizing acc with
  | nil => simp [parseSegments, hbad]
  | cons p pre' ih =>
    obtain ⟨s₁, ss₁⟩ := p
    have hok₁ := hok (s₁, ss₁) (List.mem_cons_self _ _)
    have hok' : ∀ q ∈ pre', isOkE (checkSegment F q.2 q.1) = true :=
      fun q hq => hok q (List.mem_cons_of_mem _ hq)
    cases hc : checkSegment F ss₁ s₁ with
    | error e₁ => rw [hc] at hok₁; simp [isOkE] at hok₁
    | ok o =>
      cases o with
      | none =>
        rw [List.cons_append]
        simp only [parseSegments, hc]
        exact ih acc hok'
      | some nv =>
        obtain ⟨n, v⟩ := nv
        rw [List.cons_append]
        simp only [parseSegments, hc]
        exact ih _ hok'

theorem parseSegments_ok (F : FloatOps α β) (pairs : List (String × SegmentSchema))
    (acc : List (String × SegmentValue α β))
    (hok : ∀ p ∈ pairs, isOkE (checkSegment F p.2 p.1) = true) :
    ∃ m, parseSegments F pairs acc = Except.ok m ∧
      ∀ n ∈ m.map Prod.fst, n ∈ acc.map Prod.fst ∨ n ∈ valueNames (pairs.map Prod.snd) := by
  induction pairs generalizing acc with
  | nil => exact ⟨acc, rfl, fun n hn => Or.inl hn⟩
  | cons p pairs' ih =>
    obtain ⟨s₁, ss₁⟩ := p
    have hok₁ := hok (s₁, ss₁) (List.mem_cons_self _ _)
    have hok' : ∀ q ∈ pairs', isOkE (checkSegment F q.2 q.1) = true :=
      fun q hq => hok q (List.mem_cons_of_mem _ hq)
    cases hc : checkSegment F ss₁ s₁ with
    | error e₁ => rw [hc] at hok₁; simp [isOkE] at hok₁
    | ok o =>
      cases o with
      | none =>
        obtain ⟨m, hm, hkeys⟩ := ih acc hok'
        refine ⟨m, ?_, ?_⟩
        · simp only [parseSegments, hc]; exact hm
        · intro n hn
          rcases hkeys n hn with h | h
          · exact Or.inl h
          · refine Or.inr ?_
            cases ss₁ with
            | Literal lit => simpa [valueNames] using h
            | Value vs => simp [valueNames]; exact Or.inr (by simpa using h)
      | some nv =>
        obtain ⟨n₁, v₁⟩ := nv
        obtain ⟨m, hm, hkeys⟩ := ih (hmInsert n₁ v₁ acc) hok'
        have hname : ∀ vs : SegmentValueSchema, ss₁ = SegmentSchema.Value vs → n₁ = vs.name := by
          intro vs hss
          subst hss
          simp only [checkSegment] at hc
          cases hp : parseValueAs F vs.segment_type s₁ with
          | ok v => rw [hp] at hc; simp [Except.map] at hc; exact hc.1.symm
          | error e => rw [hp] at hc; simp [Except.map] at hc
        refine ⟨m, ?_, ?_⟩
        · simp only [parseSegments, hc]; exact hm
        · intro n hn
          rcases hkeys n hn with h | h
          · rcases hmInsert_keys_subset n₁ n v₁ acc h with h₁ | h₁
            · subst h₁
              cases ss₁ with
              | Literal lit => simp [checkSegment] at hc; split at hc <;> simp_all
              | Value vs =>
                have := hname vs rfl
                subst this
                exact Or.inr (by simp [valueNames])
            · exact Or.inl h₁
          · refine Or.inr ?_
            cases ss₁ with
            | Literal lit => simpa [valueNames] using h
            | Value vs => simp [valueNames]; exact Or.inr (by simpa using h)

/-! ## Lemmas: strings and path shapes -/

theorem strAppend_assoc (a b c : String) : a ++ b ++ c = a ++ (b ++ c) := by
  apply String.ext
  simp [String.data_append, List.append_assoc]

theorem data_slash : ("/" : String).data = ['/'] := rfl

theorem splitSlash_ne_nil (p : String) : splitSlash p ≠ [] := by
  intro h
  have := splitCharAux_ne_nil '/' p.data
  simp only [splitSlash] at h
  exact this (List.map_eq_nil_iff.mp h)

theorem splitSlash_append_slash (p t : String) :
    splitSlash (p ++ "/" ++ t) = splitSlash p ++ splitSlash t := by
  have hdata : (p ++ "/" ++ t).data = p.data ++ '/' :: t.data := by
    simp [String.data_append, data_slash, List.append_assoc]
  simp only [splitSlash, hdata, splitCharAux_append, List.map_append]

theorem drop_one_append {σ : Type} (l₁ l₂ : List σ) (h : l₁ ≠ []) :
    (l₁ ++ l₂).drop 1 = l₁.drop 1 ++ l₂ := by
  cases l₁ with
  | nil => exact absurd rfl h
  | cons x l₁ => simp

theorem joinChar_cons (sep : Char) (x : List Char) (l : List (List Char)) :
    joinChar sep (x :: l) = x ++ (l.map (fun t => sep :: t)).flatten := by
  induction l generalizing x with
  | nil => simp [joinChar]
  | cons t l' ih =>
    simp only [joinChar, List.map_cons, List.flatten]
    rw [ih t]
    simp [List.append_assoc]

theorem slashConcat_data (l : List String) :
    (slashConcat l).data = (l.map (fun s => '/' :: s.data)).flatten := by
  induction l with
  | nil => rfl
  | cons s rest ih =>
    simp only [slashConcat, List.map_cons, List.flatten, String.data_append, data_slash, ih]
    simp [List.append_assoc]

theorem path_eq_slashConcat (p : String) (h : (splitSlash p).head? = some "") :
    p = slashConcat ((splitSlash p).drop 1) := by
  cases htoks : splitCharAux '/' p.data with
  | nil => exact absurd htoks (splitCharAux_ne_nil '/' p.data)
  | cons t0 ts =>
    have hs : splitSlash p = String.mk t0 :: ts.map String.mk := by
      simp [splitSlash, htoks]
    have ht0 : t0 = [] := by
      rw [hs] at h
      simp only [List.head?] at h
      have : String.mk t0 = "" := by injection h
      have := congrArg String.data this
      simpa using this
    apply String.ext
    have hp : p.data = joinChar '/' (splitCharAux '/' p.data) :=
      (joinChar_splitCharAux '/' p.data).symm
    rw [htoks, ht0] at hp
    rw [hp, joinChar_cons]
    rw [hs, ht0]
    simp only [List.drop_succ_cons, List.drop_zero, slashConcat_data, List.map_map]
    have hfun : ((fun s : String => '/' :: s.data) ∘ String.mk) = (fun t : List Char => '/' :: t) :=
      funext fun t => rfl
    rw [hfun]
    simp

/-! ## Lemmas: the serialization bridge and generate -/

theorem foldSerialize_ok (F : FloatOps α β) (fields : List (String × SegmentValue α β))
    (vals : List (String × String)) :
    fields.foldlM (fun s kv => serializeField F kv.1 kv.2 s)
        (⟨vals, SerializerState.StructKey⟩ : Serializer) =
      Except.ok ⟨fields.foldl (fun a kv => hmInsert kv.1 (renderSegmentValue F kv.2) a) vals,
        SerializerState.StructKey⟩ := by
  induction fields generalizing vals with
  | nil => rfl
  | cons kv rest ih =>
    obtain ⟨k, v⟩ := kv
    simp only [List.foldlM_cons, serializeField, serializeScalar, List.foldl_cons]
    exact ih (hmInsert k (renderSegmentValue F v) vals)

theorem serializeRecord_eq (F : FloatOps α β) (fields : List (String × SegmentValue α β)) :
    serializeRecord F fields =
      Except.ok (fields.foldl (fun a kv => hmInsert kv.1 (renderSegmentValue F kv.2) a) []) := by
  simp only [serializeRecord, serializeStructM, bind, Except.bind, foldSerialize_ok, serializeEnd]

theorem hmLookup_foldInsert_render (F : FloatOps α β) (l : List (String × SegmentValue α β))
    (n : String) (hnd : (l.map Prod.fst).Nodup) :
    hmLookup n (l.foldl (fun a kv => hmInsert kv.1 (renderSegmentValue F kv.2) a) []) =
      Option.map (renderSegmentValue F) (hmLookup n l) := by
  have hfold : l.foldl (fun a kv => hmInsert kv.1 (renderSegmentValue F kv.2) a) [] =
      (l.map (fun kv => (kv.1, renderSegmentValue F kv.2))).foldl
        (fun a kv => hmInsert kv.1 kv.2 a) [] := by
    rw [List.foldl_map]
  have hkeys : ((l.map (fun kv => (kv.1, renderSegmentValue F kv.2))).map Prod.fst).Nodup := by
    rw [List.map_map]
    exact hnd
  rw [hfold, hmLookup_foldInsert _ _ _ hkeys]
  have hmap := hmLookup_map_render (renderSegmentValue F) l n
  rw [hmap]
  cases hmLookup n l with
  | none => simp [hmLookup]
  | some v => simp

theorem assemblePath_ok (m : List (String × String)) (descs : List SegmentSchema)
    (segs : List String) (acc : String)
    (hlen : segs.length = descs.length)
    (hmatch : ∀ pr ∈ segs.zip descs,
      match pr.2 with
      | SegmentSchema.Literal lit => pr.1 = lit
      | SegmentSchema.Value vs => hmLookup vs.name m = some pr.1) :
    (assemblePath m descs acc : Except (StructPathError α β) String) =
      Except.ok (acc ++ slashConcat segs) := by
  induction descs generalizing segs acc with
  | nil =>
    cases segs with
    | nil => simp [assemblePath, slashConcat]
    | cons s segs => simp at hlen
  | cons d descs' ih =>
    cases segs with
    | nil => simp at hlen
    | cons s segs' =>
      simp only [List.length_cons, Nat.succ.injEq] at hlen
      have hhead := hmatch (s, d) (by simp [List.zip_cons_cons])
      have htail : ∀ pr ∈ segs'.zip descs',
          match pr.2 with
          | SegmentSchema.Literal lit => pr.1 = lit
          | SegmentSchema.Value vs => hmLookup vs.name m = some pr.1 := by
        intro pr hpr
        exact hmatch pr (by simp [List.zip_cons_cons, hpr])
      cases d with
      | Literal lit =>
        simp only at hhead
        subst hhead
        rw [assemblePath, ih segs' (acc ++ "/" ++ s) hlen htail]
        rw [slashConcat, strAppend_assoc, strAppend_assoc, strAppend_assoc]
      | Value vs =>
        simp only at hhead
        rw [assemblePath, hhead]
        show assemblePath m descs' (acc ++ "/" ++ s) = _
        rw [ih segs' (acc ++ "/" ++ s) hlen htail]
        rw [slashConcat, strAppend_assoc, strAppend_assoc, strAppend_assoc]

/-! ## Lemmas: canonical parsing for the round trip -/

theorem parseSegments_canonical (F : FloatOps α β) (segs : List String)
    (descs : List SegmentSchema) (acc : List (String × SegmentValue α β))
    (hlen : segs.length = descs.length)
    (hmatch : ∀ pr ∈ segs.zip descs, MatchCanon F pr) :
    ∃ m, parseSegments F (segs.zip descs) acc = Except.ok m ∧
      (∀ n, n ∉ valueNames descs → hmLookup n m = hmLookup n acc) ∧
      ((valueNames descs).Nodup →
        ∀ pr ∈ segs.zip descs, ∀ vs : SegmentValueSchema, pr.2 = SegmentSchema.Value vs →
          ∃ v, parseValueAs F vs.segment_type pr.1 = Except.ok v ∧
            renderSegmentValue F v = pr.1 ∧ hmLookup vs.name m = some v) ∧
      ((acc.map Prod.fst).Nodup → (m.map Prod.fst).Nodup) := by
  induction segs generalizing descs acc with
  | nil =>
    cases descs with
    | nil =>
      refine ⟨acc, rfl, fun n _ => rfl, ?_, fun h => h⟩
      intro _ pr hpr
      simp at hpr
    | cons d descs' => simp at hlen
  | cons s segs' ih =>
    cases descs with
    | nil => simp at hlen
    | cons d descs' =>
      simp only [List.length_cons, Nat.succ.injEq] at hlen
      have hhead := hmatch (s, d) (by simp [List.zip_cons_cons])
      have htail : ∀ pr ∈ segs'.zip descs', MatchCanon F pr := by
        intro pr hpr
        exact hmatch pr (by simp [List.zip_cons_cons, hpr])
      cases d with
      | Literal lit =>
        simp only [MatchCanon] at hhead
        subst hhead
        obtain ⟨m, hm, hout, hvals, hnd⟩ := ih descs' acc hlen htail
        refine ⟨m, ?_, ?_, ?_, hnd⟩
        · simp only [List.zip_cons_cons, parseSegments, checkSegment, if_pos rfl]
          exact hm
        · intro n hn
          exact hout n (by simpa [valueNames] using hn)
        · intro hnodup pr hpr vs hvs
          simp only [valueNames] at hnodup
          simp only [List.zip_cons_cons, List.mem_cons] at hpr
          rcases hpr with hpr | hpr
          · rw [hpr] at hvs; simp at hvs
          · exact hvals hnodup pr hpr vs hvs
      | Value vs₁ =>
        simp only [MatchCanon] at hhead
        obtain ⟨v₁, hv₁, hr₁⟩ := hhead
        obtain ⟨m, hm, hout, hvals, hnd⟩ := ih descs' (hmInsert vs₁.name v₁ acc) hlen htail
        refine ⟨m, ?_, ?_, ?_, ?_⟩
        · simp only [List.zip_cons_cons, parseSegments, checkSegment, hv₁, Except.map]
          exact hm
        · intro n hn
          simp only [valueNames, List.mem_cons, not_or] at hn
          rw [hout n hn.2, hmLookup_hmInsert, if_neg hn.1]
        · intro hnodup pr hpr vs hvs
          simp only [valueNames, List.nodup_cons] at hnodup
          simp only [List.zip_cons_cons, List.mem_cons] at hpr
          rcases hpr with hpr | hpr
          · rw [hpr] at hvs
            simp only [SegmentSchema.Value.injEq] at hvs
            subst hvs
            rw [hpr]
            refine ⟨v₁, hv₁, hr₁, ?_⟩
            rw [hout vs₁.name hnodup.1, hmLookup_hmInsert, if_pos rfl]
          · exact hvals hnodup.2 pr hpr vs hvs
        · intro hacc
          exact hnd (hmInsert_nodup_keys _ _ _ hacc)

/-! ## Lemmas: the schema DSL -/

theorem takeWhile_no_gt (l : List Char) (h : '>' ∉ l) :
    (l ++ ['>']).takeWhile (fun c₁ => c₁ ≠ '>') = l := by
  induction l with
  | nil => simp [List.takeWhile]
  | cons c cs ih =>
    simp only [List.mem_cons, not_or] at h
    simp only [List.cons_append, List.takeWhile_cons]
    rw [if_pos (by simpa using Ne.symm h.1)]
    rw [ih h.2]

theorem parseSchemaSegment_bracket (nm : String) (hcolon : ':' ∉ nm.data)
    (hgt : '>' ∉ nm.data) :
    parseSchemaSegment ("<" ++ nm ++ ">") =
      some (Except.ok (SegmentSchema.Value ⟨nm, SegmentType.String⟩)) := by
  have hdata : ("<" ++ nm ++ ">").data = '<' :: (nm.data ++ ['>']) := by
    simp [String.data_append]
  simp only [parseSchemaSegment, hdata]
  rw [if_neg (by simp), if_pos trivial]
  simp only [List.drop_succ_cons, List.drop_zero]
  rw [takeWhile_no_gt nm.data hgt, splitCharAux_no_sep ':' nm.data hcolon]

theorem parseSchemaSegment_isSome (s : String) (h : asciiHeaded s = true) :
    (parseSchemaSegment s).isSome = true := by
  cases hd : s.data with
  | nil => simp [asciiHeaded, hd] at h
  | cons c cs =>
    simp only [asciiHeaded, hd, decide_eq_true_eq] at h
    simp only [parseSchemaSegment, hd]
    rw [if_neg (by omega)]
    by_cases hc : c = '<'
    · rw [if_pos hc]
      split
      · simp
      · split <;> simp
      · simp
    · rw [if_neg hc]
      simp

theorem schemaPathSegments_isSome (toks : List String)
    (h : ∀ s ∈ toks, (parseSchemaSegment s).isSome = true) :
    (schemaPathSegments toks).isSome = true := by
  induction toks with
  | nil => simp [schemaPathSegments]
  | cons seg rest ih =>
    have hhead := h seg (List.mem_cons_self _ _)
    have htail : ∀ s ∈ rest, (parseSchemaSegment s).isSome :=
      fun s hs => h s (List.mem_cons_of_mem _ hs)
    cases hp : parseSchemaSegment seg with
    | none => rw [hp] at hhead; simp at hhead
    | some e =>
      cases e with
      | error e₁ => simp [schemaPathSegments, hp]
      | ok ss =>
        have := ih htail
        cases hr : schemaPathSegments rest with
        | none => rw [hr] at this; simp at this
        | some er =>
          cases er with
          | error e₁ => simp [schemaPathSegments, hp, hr]
          | ok l => simp [schemaPathSegments, hp, hr]

/-! ## Lemmas: more zipping -/

theorem zip_map_snd {σ τ : Type} (l₁ : List σ) (l₂ : List τ) (h : l₁.length ≤ l₂.length) :
    (l₁.zip l₂).map Prod.snd = l₂.take l₁.length := by
  induction l₁ generalizing l₂ with
  | nil => simp
  | cons x l₁ ih =>
    cases l₂ with
    | nil => simp at h
    | cons y l₂ =>
      simp only [List.length_cons, Nat.succ_le_succ_iff] at h
      simp [List.zip_cons_cons, ih l₂ h]

/-! ## Lemmas: generate against the spec's walk -/

theorem strAppend_empty (s : String) : s ++ "" = s := by
  apply String.ext
  simp [String.data_append]

theorem strEmpty_append (s : String) : "" ++ s = s := by
  apply String.ext
  simp [String.data_append]

theorem assemblePath_spec (m : List (String × String)) (descs : List SegmentSchema) (acc : String)
    (h : ∀ n ∈ valueNames descs, (hmLookup n m).isSome = true) :
    (assemblePath m descs acc : Except (StructPathError α β) String) =
      Except.ok (acc ++ specAssembledPath m descs) := by
  induction descs generalizing acc with
  | nil => simp [assemblePath, specAssembledPath, strAppend_empty]
  | cons d descs' ih =>
    cases d with
    | Literal lit =>
      have htail : ∀ n ∈ valueNames descs', (hmLookup n m).isSome = true :=
        fun n hn => h n (by simpa [valueNames] using hn)
      rw [assemblePath, ih (acc ++ "/" ++ lit) htail]
      rw [specAssembledPath, strAppend_assoc, strAppend_assoc, strAppend_assoc]
    | Value vs =>
      have htail : ∀ n ∈ valueNames descs', (hmLookup n m).isSome = true :=
        fun n hn => h n (by simp [valueNames, hn])
      have hvs := h vs.name (by simp [valueNames])
      cases hl : hmLookup vs.name m with
      | none => rw [hl] at hvs; simp at hvs
      | some v =>
        rw [assemblePath, hl]
        show assemblePath m descs' (acc ++ "/" ++ v) = _
        rw [ih (acc ++ "/" ++ v) htail]
        simp only [specAssembledPath, hl, Option.getD_some]
        rw [strAppend_assoc, strAppend_assoc, strAppend_assoc]

theorem assemblePath_missing (m : List (String × String)) (pre : List SegmentSchema)
    (vs : SegmentValueSchema) (post : List SegmentSchema) (acc : String)
    (hpre : ∀ n ∈ valueNames pre, (hmLookup n m).isSome = true)
    (habs : hmLookup vs.name m = none) :
    (assemblePath m (pre ++ SegmentSchema.Value vs :: post) acc :
        Except (StructPathError α β) String) =
      Except.error (StructPathError.MissingField vs.name) := by
  induction pre generalizing acc with
  | nil => simp [assemblePath, habs]
  | cons d pre' ih =>
    cases d with
    | Literal lit =>
      have htail : ∀ n ∈ valueNames pre', (hmLookup n m).isSome = true :=
        fun n hn => hpre n (by simpa [valueNames] using hn)
      rw [List.cons_append, assemblePath]
      exact ih _ htail
    | Value vs₁ =>
      have htail : ∀ n ∈ valueNames pre', (hmLookup n m).isSome = true :=
        fun n hn => hpre n (by simp [valueNames, hn])
      have hvs := hpre vs₁.name (by simp [valueNames])
      cases hl : hmLookup vs₁.name m with
      | none => rw [hl] at hvs; simp at hvs
      | some v =>
        rw [List.cons_append, assemblePath, hl]
        show assemblePath m (pre' ++ SegmentSchema.Value vs :: post) (acc ++ "/" ++ v) = _
        exact ih _ htail

theorem specAssembledPath_head (m : List (String × String)) (d : SegmentSchema)
    (descs : List SegmentSchema) :
    (specAssembledPath m (d :: descs)).data.head? = some '/' := by
  cases d <;> simp [specAssembledPath, String.data_append, data_slash]

/-! ## Lemmas: the deserialization bridge state machine -/

theorem deserializeMapEntry_ok (d d₁ : Deserializer α β)
    (h : deserializeMapEntry d = Except.ok d₁) :
    d₁ = ⟨d.generic_parsed_path, DeserializerState.Map⟩ := by
  cases hstate : d.state with
  | Start =>
    simp only [deserializeMapEntry, hstate] at h
    injection h with h'
    exact h'.symm
  | Map => simp [deserializeMapEntry, hstate] at h
  | MapKey k => simp [deserializeMapEntry, hstate] at h
  | MapValue v => simp [deserializeMapEntry, hstate] at h
  | End => simp [deserializeMapEntry, hstate] at h

theorem nextKeySeed_ok_mapkey (d d₁ : Deserializer α β) (o : Option String) (k : String)
    (h : nextKeySeed d = Except.ok (o, d₁)) (hk : d₁.state = DeserializerState.MapKey k) :
    (hmLookup k d₁.generic_parsed_path).isSome := by
  cases hstate : d.state with
  | Map =>
    simp only [nextKeySeed, hstate] at h
    cases hmap : d.generic_parsed_path with
    | nil =>
      rw [hmap] at h
      simp only [List.head?] at h
      injection h with h'
      injection h' with ho hd
      rw [← hd] at hk
      simp at hk
    | cons kv rest =>
      obtain ⟨k₀, v₀⟩ := kv
      rw [hmap] at h
      simp only [List.head?] at h
      injection h with h'
      injection h' with ho hd
      rw [← hd] at hk ⊢
      simp only at hk
      injection hk with hkk
      subst hkk
      simp [hmap, hmLookup]
  | Start => simp [nextKeySeed, hstate] at h
  | MapKey k₁ => simp [nextKeySeed, hstate] at h
  | MapValue v => simp [nextKeySeed, hstate] at h
  | End => simp [nextKeySeed, hstate] at h

theorem nextValueSeed_ok_not_mapkey (d d₁ : Deserializer α β)
    (h : nextValueSeed d = Except.ok d₁) (k : String) :
    d₁.state ≠ DeserializerState.MapKey k := by
  cases hstate : d.state with
  | MapKey key =>
    simp only [nextValueSeed, hstate] at h
    cases hrem : hmRemove key d.generic_parsed_path with
    | some pr =>
      obtain ⟨v, rest⟩ := pr
      rw [hrem] at h
      injection h with h'
      rw [← h']
      simp
    | none => rw [hrem] at h; simp at h
  | Start => simp [nextValueSeed, hstate] at h
  | Map => simp [nextValueSeed, hstate] at h
  | MapValue v => simp [nextValueSeed, hstate] at h
  | End => simp [nextValueSeed, hstate] at h

theorem deserializeScalar_ok_state (t : SegmentType) (d d₁ : Deserializer α β)
    (v : SegmentValue α β) (h : deserializeScalar t d = Except.ok (v, d₁)) :
    d₁.state = DeserializerState.Map := by
  cases hstate : d.state with
  | MapValue sv =>
    simp only [deserializeScalar, hstate] at h
    cases t <;> cases sv <;> simp at h <;>
      (obtain ⟨hv, hd⟩ := h; rw [← hd])
  | Start => simp [deserializeScalar, hstate] at h
  | Map => simp [deserializeScalar, hstate] at h
  | MapKey k => simp [deserializeScalar, hstate] at h
  | End => simp [deserializeScalar, hstate] at h

/-- The state-machine invariant behind the defensive `Impossible` branch:
in every reachable deserializer state, a held `MapKey` name is still bound
in the field map. -/
theorem dreach_mapkey_lookup (d : Deserializer α β) (h : DReach d) :
    ∀ k, d.state = DeserializerState.MapKey k →
      (hmLookup k d.generic_parsed_path).isSome := by
  induction h with
  | init m => intro k hk; simp at hk
  | stepMap hd heq ih =>
    intro k hk
    rw [deserializeMapEntry_ok _ _ heq] at hk
    simp at hk
  | stepKey hd heq ih =>
    intro k hk
    exact nextKeySeed_ok_mapkey _ _ _ k heq hk
  | stepValue hd heq ih =>
    intro k hk
    exact absurd hk (nextValueSeed_ok_not_mapkey _ _ heq k)
  | stepScalar hd heq ih =>
    intro k hk
    rw [deserializeScalar_ok_state _ _ _ _ heq] at hk
    simp at hk

/-! ## Claim theorems, counterexamples and witnesses -/

/-- C2: the code_bug exhibited. `deserialize_u16` rejects a stored `U16`
value with an Expected-Type error naming `"u64"`, accepts a stored `U64`
value, and `deserialize_u32` likewise rejects a stored `U32` — while the
matcher stores a `u16`-declared segment as `U16`, so the two halves of the
pipeline disagree. The claim's "tag equals the requested type, for all 13
scalar types including u16 and u32" is right about the intent and the code
is a copy-paste slip. -/
theorem deserialize_u16_u32_use_u64_tag :
    deserializeScalar SegmentType.U16
        (⟨[], DeserializerState.MapValue (SegmentValue.U16 5)⟩ : Deserializer Unit Unit) =
      Except.error (StructPathError.ExpectedType "u64" (SegmentValue.U16 5)) ∧
    deserializeScalar SegmentType.U16
        (⟨[], DeserializerState.MapValue (SegmentValue.U64 7)⟩ : Deserializer Unit Unit) =
      Except.ok (SegmentValue.U64 7, ⟨[], DeserializerState.Map⟩) ∧
    deserializeScalar SegmentType.U32
        (⟨[], DeserializerState.MapValue (SegmentValue.U32 5)⟩ : Deserializer Unit Unit) =
      Except.error (StructPathError.ExpectedType "u64" (SegmentValue.U32 5)) ∧
    parseValueAs trivialFloatOps SegmentType.U16 "5" = Except.ok (SegmentValue.U16 5) :=
  ⟨by decide, by decide, by decide, by decide⟩

/-- C3 counterexample: beginning to serialize a struct from the `End` state
(any state other than `Start`) succeeds and silently resets the machine to
`StructKey`, instead of failing with an Invalid-State error as claimed. -/
theorem serialize_struct_from_end_counterexample :
    (serializeStructM (⟨[], SerializerState.End⟩ : Serializer) :
        Except (StructPathError Unit Unit) Serializer) =
      Except.ok ⟨[], SerializerState.StructKey⟩ := by decide

/-- C3 (amended): `serialize_struct` performs no state check at all — from
every serializer state it succeeds, unconditionally setting the state
machine to `StructKey`. -/
theorem serialize_struct_unconditional (s : Serializer) :
    (serializeStructM s : Except (StructPathError α β) Serializer) =
      Except.ok ⟨s.serialized_values, SerializerState.StructKey⟩ := rfl

/-- C4 counterexample: on a pattern with a trailing `/` (and likewise `//`)
the empty segment makes the byte slice `&segment[0..1]` panic, so
`Schema::path` does not return a value at all. -/
theorem schema_path_trailing_slash_counterexample :
    Schema.path "/foo/" = none ∧ Schema.path "//" = none :=
  ⟨by decide, by decide⟩

/-- C4 (amended): `Schema::path` returns a value (a Schema or a ParseError)
without panicking on every pattern whose `/`-split tokens after the first
are nonempty and start with a single-byte character; a pattern containing
an empty segment — a trailing `/` or a `//` — panics instead. -/
theorem schema_path_no_panic (pattern : String)
    (h : ∀ s ∈ (splitSlash pattern).drop 1, asciiHeaded s = true) :
    (Schema.path pattern).isSome = true := by
  have hseg : ∀ s ∈ (splitSlash pattern).drop 1, (parseSchemaSegment s).isSome = true :=
    fun s hs => parseSchemaSegment_isSome s (h s hs)
  have hall := schemaPathSegments_isSome _ hseg
  cases hr : schemaPathSegments ((splitSlash pattern).drop 1) with
  | none => rw [hr] at hall; simp at hall
  | some er =>
    rw [List.drop_one] at hr
    cases er with
    | error e => simp [Schema.path, hr]
    | ok l => simp [Schema.path, hr]

/-- C4 witness: a well-formed pattern is processed without panic. -/
theorem schema_path_no_panic_witness :
    (Schema.path "/foo/<id:u64>/bar/<name>").isSome = true :=
  schema_path_no_panic "/foo/<id:u64>/bar/<name>" (by decide)

/-- C5: the matcher is atomic — whenever the zipped (segment, descriptor)
list splits as a prefix of passing checks followed by a failing check, the
whole call returns exactly that first error, never a partial field map. -/
theorem parse_fails_on_first_error (F : FloatOps α β) (path : String) (schema : Schema)
    (pre : List (String × SegmentSchema)) (seg : String) (ss : SegmentSchema)
    (post : List (String × SegmentSchema)) (e : StructPathError α β)
    (hzip : ((splitSlash path).drop 1).zip schema.segments = pre ++ (seg, ss) :: post)
    (hok : ∀ p ∈ pre, isOkE (checkSegment F p.2 p.1) = true)
    (hbad : checkSegment F ss seg = Except.error e) :
    parse_path_generic F path schema = Except.error e := by
  simp only [parse_path_generic]
  rw [hzip]
  exact parseSegments_append_error F pre seg ss post [] e hok hbad

/-- C5 witness: the spec's own example — `/baz/1` against
`literal("foo"), value("id", U64)` fails with the first literal mismatch. -/
theorem parse_fails_on_first_error_witness :
    parse_path_generic trivialFloatOps "/baz/1"
        ⟨[SegmentSchema.Literal "foo", SegmentSchema.Value ⟨"id", SegmentType.U64⟩]⟩ =
      Except.error (StructPathError.IncorrectSegment "baz" "foo") :=
  parse_fails_on_first_error trivialFloatOps "/baz/1"
    ⟨[SegmentSchema.Literal "foo", SegmentSchema.Value ⟨"id", SegmentType.U64⟩]⟩
    [] "baz" (SegmentSchema.Literal "foo")
    [("1", SegmentSchema.Value ⟨"id", SegmentType.U64⟩)]
    (StructPathError.IncorrectSegment "baz" "foo")
    (by decide) (by intro p hp; simp at hp) (by decide)

/-- C9: during any parse, the defensive `Impossible` branch of
`next_value_seed` is unreachable — in every reachable deserializer state the
call never returns the `Impossible` error, because a held `MapKey` name is
always still bound in the field map. -/
theorem next_value_never_impossible (d : Deserializer α β) (h : DReach d) :
    nextValueSeed d ≠ Except.error StructPathError.Impossible := by
  intro hbad
  cases hstate : d.state with
  | MapKey k =>
    have hl := dreach_mapkey_lookup d h k hstate
    have hr := hmRemove_isSome_of_lookup k d.generic_parsed_path hl
    simp only [nextValueSeed, hstate] at hbad
    cases hrem : hmRemove k d.generic_parsed_path with
    | some pr =>
      obtain ⟨v, rest⟩ := pr
      rw [hrem] at hbad
      simp at hbad
    | none => rw [hrem] at hr; simp at hr
  | Start => simp [nextValueSeed, hstate] at hbad
  | Map => simp [nextValueSeed, hstate] at hbad
  | MapValue v => simp [nextValueSeed, hstate] at hbad
  | End => simp [nextValueSeed, hstate] at hbad

/-- C9 witness: the theorem applied to the freshly constructed deserializer
state, which is reachable by construction. -/
theorem next_value_never_impossible_witness :
    nextValueSeed (⟨[], DeserializerState.Start⟩ : Deserializer Unit Unit) ≠
      Except.error StructPathError.Impossible :=
  next_value_never_impossible _ (DReach.init [])

/-- C10: both the matcher and the DSL pattern parser drop the first
`/`-split token unconditionally: replacing the leading token `t` (which may
be any slash-free text, empty or not) never changes the result, so
`foo/1` is matched exactly as `/1` is. -/
theorem first_split_token_dropped (F : FloatOps α β) (t rest : String) (schema : Schema)
    (h : '/' ∉ t.data) :
    parse_path_generic F (t ++ "/" ++ rest) schema =
      parse_path_generic F ("/" ++ rest) schema ∧
    Schema.path (t ++ "/" ++ rest) = Schema.path ("/" ++ rest) := by
  have hone : splitSlash t = [t] := by
    simp only [splitSlash, splitCharAux_no_sep '/' t.data h, List.map_cons, List.map_nil]
  have hsplit1 : splitSlash (t ++ "/" ++ rest) = t :: splitSlash rest := by
    rw [splitSlash_append_slash, hone]
    rfl
  have hdata2 : ("/" ++ rest).data = '/' :: rest.data := by
    simp [String.data_append, data_slash]
  have hsplit2 : splitSlash ("/" ++ rest) = "" :: splitSlash rest := by
    simp only [splitSlash, hdata2]
    simp [splitCharAux]
  constructor
  · simp only [parse_path_generic, hsplit1, hsplit2, List.drop_succ_cons, List.drop_zero]
  · simp only [Schema.path, hsplit1, hsplit2, List.drop_succ_cons, List.drop_zero]

/-- C10 witness: `foo/1` is matched exactly as `/1`, and likewise for the
DSL parser. -/
theorem first_split_token_dropped_witness :
    parse_path_generic trivialFloatOps ("foo" ++ "/" ++ "1")
        ⟨[SegmentSchema.Value ⟨"id", SegmentType.U64⟩]⟩ =
      parse_path_generic trivialFloatOps ("/" ++ "1")
        ⟨[SegmentSchema.Value ⟨"id", SegmentType.U64⟩]⟩ ∧
    Schema.path ("foo" ++ "/" ++ "1") = Schema.path ("/" ++ "1") :=
  first_split_token_dropped trivialFloatOps "foo" "1"
    ⟨[SegmentSchema.Value ⟨"id", SegmentType.U64⟩]⟩ (by decide)

/-- C1 counterexample: a schema with two Value descriptors of the same name
is matched by `/x/y` (both segments canonical for `String`), but the later
insertion overwrites the earlier one in the field map, so the round trip
returns `/y/y`, not the original path. -/
theorem roundtrip_duplicate_names_counterexample :
    parse_path_generic trivialFloatOps "/x/y"
        ⟨[SegmentSchema.Value ⟨"a", SegmentType.String⟩,
          SegmentSchema.Value ⟨"a", SegmentType.String⟩]⟩ =
      Except.ok [("a", SegmentValue.String "y")] ∧
    generate_path trivialFloatOps [("a", SegmentValue.String "y")]
        ⟨[SegmentSchema.Value ⟨"a", SegmentType.String⟩,
          SegmentSchema.Value ⟨"a", SegmentType.String⟩]⟩ =
      Except.ok "/y/y" ∧
    ("/y/y" : String) ≠ "/x/y" :=
  ⟨by decide, by decide, by decide⟩

/-- C1 (amended): for a schema of Literal/Value descriptors whose Value
names are pairwise distinct, and a path that matches it — it begins with `/`
(leading split token empty), has exactly one segment per descriptor, and
each value segment is the canonical rendering of its parsed value — parsing
into a field map and generating from that map returns exactly the original
path string. -/
theorem parse_generate_roundtrip (F : FloatOps α β) (path : String) (descs : List SegmentSchema)
    (hslash : (splitSlash path).head? = some "")
    (hlen : ((splitSlash path).drop 1).length = descs.length)
    (hnodup : (valueNames descs).Nodup)
    (hmatch : ∀ pr ∈ ((splitSlash path).drop 1).zip descs, MatchCanon F pr) :
    ∃ m, parse_path_generic F path ⟨descs⟩ = Except.ok m ∧
      generate_path F m ⟨descs⟩ = Except.ok path := by
  obtain ⟨m, hm, hout, hvals, hnd⟩ :=
    parseSegments_canonical F ((splitSlash path).drop 1) descs [] hlen hmatch
  have hmnd : (m.map Prod.fst).Nodup := hnd (by simp)
  have hmatch2 : ∀ pr ∈ ((splitSlash path).drop 1).zip descs,
      match pr.2 with
      | SegmentSchema.Literal lit => pr.1 = lit
      | SegmentSchema.Value vs =>
        hmLookup vs.name
            (m.foldl (fun a kv => hmInsert kv.1 (renderSegmentValue F kv.2) a) []) =
          some pr.1 := by
    intro pr hpr
    obtain ⟨seg, ss⟩ := pr
    have hmc := hmatch (seg, ss) hpr
    cases ss with
    | Literal lit => simpa [MatchCanon] using hmc
    | Value vs =>
      obtain ⟨v, hpv, hrv, hlv⟩ := hvals hnodup (seg, SegmentSchema.Value vs) hpr vs rfl
      simp only
      rw [hmLookup_foldInsert_render F m vs.name hmnd, hlv]
      simp [hrv]
  have hasm : (assemblePath
        (m.foldl (fun a kv => hmInsert kv.1 (renderSegmentValue F kv.2) a) []) descs "" :
        Except (StructPathError α β) String) =
      Except.ok ("" ++ slashConcat ((splitSlash path).drop 1)) :=
    assemblePath_ok _ descs ((splitSlash path).drop 1) "" hlen hmatch2
  refine ⟨m, ?_, ?_⟩
  · exact hm
  · have hgen : generate_path F m ⟨descs⟩ =
        assemblePath (m.foldl (fun a kv => hmInsert kv.1 (renderSegmentValue F kv.2) a) [])
          descs "" := by
      simp only [generate_path, serializeRecord_eq, bind, Except.bind]
    rw [hgen, hasm, strEmpty_append, ← path_eq_slashConcat path hslash]

/-- C1 witness: the spec's end-to-end example round-trips. -/
theorem parse_generate_roundtrip_witness :
    ∃ m, parse_path_generic trivialFloatOps "/foo/1/bar/thing"
        ⟨[SegmentSchema.Literal "foo", SegmentSchema.Value ⟨"id", SegmentType.U64⟩,
          SegmentSchema.Literal "bar", SegmentSchema.Value ⟨"name", SegmentType.String⟩]⟩ =
      Except.ok m ∧
      generate_path trivialFloatOps m
        ⟨[SegmentSchema.Literal "foo", SegmentSchema.Value ⟨"id", SegmentType.U64⟩,
          SegmentSchema.Literal "bar", SegmentSchema.Value ⟨"name", SegmentType.String⟩]⟩ =
      Except.ok "/foo/1/bar/thing" :=
  parse_generate_roundtrip trivialFloatOps "/foo/1/bar/thing"
    [SegmentSchema.Literal "foo", SegmentSchema.Value ⟨"id", SegmentType.U64⟩,
      SegmentSchema.Literal "bar", SegmentSchema.Value ⟨"name", SegmentType.String⟩]
    (by decide) (by decide) (by decide)
    (by
      intro pr hpr
      have hzip : ((splitSlash "/foo/1/bar/thing").drop 1).zip
          [SegmentSchema.Literal "foo", SegmentSchema.Value ⟨"id", SegmentType.U64⟩,
            SegmentSchema.Literal "bar", SegmentSchema.Value ⟨"name", SegmentType.String⟩] =
          [("foo", SegmentSchema.Literal "foo"),
            ("1", SegmentSchema.Value ⟨"id", SegmentType.U64⟩),
            ("bar", SegmentSchema.Literal "bar"),
            ("thing", SegmentSchema.Value ⟨"name", SegmentType.String⟩)] := by decide
      rw [hzip] at hpr
      simp only [List.mem_cons, List.not_mem_nil, or_false] at hpr
      rcases hpr with h | h | h | h
      · subst h; exact rfl
      · subst h; exact ⟨SegmentValue.U64 1, by decide, by decide⟩
      · subst h; exact rfl
      · subst h; exact ⟨SegmentValue.String "thing", by decide, by decide⟩)

/-- C6: the matcher zips positionally and stops at the shorter sequence —
descriptors beyond the path's segment count never affect the result, extra
path segments beyond the schema never affect the result, and a shorter path
whose present segments all check out succeeds with a field map containing
only names from the consumed descriptor prefix. -/
theorem parse_length_leniency (F : FloatOps α β) (path : String) (descs : List SegmentSchema) :
    (parse_path_generic F path ⟨descs⟩ =
      parse_path_generic F path ⟨descs.take ((splitSlash path).drop 1).length⟩) ∧
    (∀ t : String, descs.length ≤ ((splitSlash path).drop 1).length →
      parse_path_generic F (path ++ "/" ++ t) ⟨descs⟩ = parse_path_generic F path ⟨descs⟩) ∧
    (((splitSlash path).drop 1).length ≤ descs.length →
      (∀ pr ∈ ((splitSlash path).drop 1).zip descs, isOkE (checkSegment F pr.2 pr.1) = true) →
      ∃ m, parse_path_generic F path ⟨descs⟩ = Except.ok m ∧
        ∀ n ∈ m.map Prod.fst,
          n ∈ valueNames (descs.take ((splitSlash path).drop 1).length)) := by
  refine ⟨?_, ?_, ?_⟩
  · simp only [parse_path_generic]
    rw [zip_take_right]
  · intro t hle
    simp only [parse_path_generic]
    rw [splitSlash_append_slash, drop_one_append _ _ (splitSlash_ne_nil path),
      zip_append_left _ _ _ hle]
  · intro hle hok
    obtain ⟨m, hm, hkeys⟩ := parseSegments_ok F (((splitSlash path).drop 1).zip descs) [] hok
    refine ⟨m, hm, ?_⟩
    intro n hn
    rcases hkeys n hn with h₁ | h₁
    · simp at h₁
    · rwa [zip_map_snd _ _ hle] at h₁

/-- C6 witness: a path with one segment fewer than the schema succeeds and
produces a map whose names come only from the consumed prefix; the first
two conjuncts are instantiated alongside. -/
theorem parse_length_leniency_witness :
    ∃ m, parse_path_generic trivialFloatOps "/foo/1"
        ⟨[SegmentSchema.Literal "foo", SegmentSchema.Value ⟨"id", SegmentType.U64⟩,
          SegmentSchema.Value ⟨"extra", SegmentType.U64⟩]⟩ = Except.ok m ∧
      ∀ n ∈ m.map Prod.fst,
        n ∈ valueNames ([SegmentSchema.Literal "foo",
          SegmentSchema.Value ⟨"id", SegmentType.U64⟩,
          SegmentSchema.Value ⟨"extra", SegmentType.U64⟩].take
            ((splitSlash "/foo/1").drop 1).length) :=
  (parse_length_leniency trivialFloatOps "/foo/1"
    [SegmentSchema.Literal "foo", SegmentSchema.Value ⟨"id", SegmentType.U64⟩,
      SegmentSchema.Value ⟨"extra", SegmentType.U64⟩]).2.2 (by decide) (by decide)

/-- C7 counterexample: for the empty schema and the empty record (whose
serialization succeeds and produces every required field, there being none)
generate returns the empty string, which does not begin with `/`. -/
theorem generate_empty_schema_counterexample :
    generate_path trivialFloatOps [] ⟨[]⟩ = Except.ok "" ∧
    ("" : String).data.head? ≠ some '/' :=
  ⟨by decide, by decide⟩

/-- C7 (amended): when the record's serialization succeeds with map `m` and
every name demanded by a Value descriptor is present, generate returns
exactly the walk of the descriptors — `/` plus literal text, `/` plus the
rendered value — which begins with `/` whenever the schema is nonempty (the
empty schema yields the empty string); and when some Value descriptor's
name is absent (all earlier ones present), generate fails with a
Missing-Field error naming that field. -/
theorem generate_walks_descriptors (F : FloatOps α β)
    (fields : List (String × SegmentValue α β)) (schema : Schema)
    (m : List (String × String)) (hser : serializeRecord F fields = Except.ok m) :
    ((∀ n ∈ valueNames schema.segments, (hmLookup n m).isSome = true) →
      generate_path F fields schema = Except.ok (specAssembledPath m schema.segments) ∧
      (schema.segments ≠ [] →
        (specAssembledPath m schema.segments).data.head? = some '/')) ∧
    (∀ pre vs post, schema.segments = pre ++ SegmentSchema.Value vs :: post →
      (∀ n ∈ valueNames pre, (hmLookup n m).isSome = true) →
      hmLookup vs.name m = none →
      generate_path F fields schema = Except.error (StructPathError.MissingField vs.name)) := by
  have hgen : generate_path F fields schema = assemblePath m schema.segments "" := by
    simp only [generate_path, hser, bind, Except.bind]
  constructor
  · intro hall
    constructor
    · rw [hgen, assemblePath_spec m schema.segments "" hall, strEmpty_append]
    · intro hne
      cases hd : schema.segments with
      | nil => exact absurd hd hne
      | cons d descs => exact specAssembledPath_head m d descs
  · intro pre vs post hsegs hpre habs
    rw [hgen, hsegs]
    exact assemblePath_missing m pre vs post "" hpre habs

/-- C7 witness: a literal plus one present field assembles as described. -/
theorem generate_walks_descriptors_witness :
    generate_path trivialFloatOps [("id", SegmentValue.U64 1)]
        ⟨[SegmentSchema.Literal "foo", SegmentSchema.Value ⟨"id", SegmentType.U64⟩]⟩ =
      Except.ok (specAssembledPath [("id", "1")]
        [SegmentSchema.Literal "foo", SegmentSchema.Value ⟨"id", SegmentType.U64⟩]) :=
  ((generate_walks_descriptors trivialFloatOps [("id", SegmentValue.U64 1)]
    ⟨[SegmentSchema.Literal "foo", SegmentSchema.Value ⟨"id", SegmentType.U64⟩]⟩
    [("id", "1")] (by decide)).1 (by decide)).1

/-- C8: `fromPattern("/foo/<id:u64>/bar/<name>")` equals, by structural
equality, the builder-constructed
`literal("foo").value("id", U64).literal("bar").value("name", String)`;
and in general a bracketed token with no `:` (and no `>`) in its content
becomes a Value descriptor named by the whole content with the default text
type. -/
theorem dsl_pattern_matches_builder :
    Schema.path "/foo/<id:u64>/bar/<name>" =
      some (Except.ok ((((Schema.new.literal "foo").value "id" SegmentType.U64).literal
        "bar").value "name" SegmentType.String)) ∧
    ∀ nm : String, ':' ∉ nm.data → '>' ∉ nm.data →
      parseSchemaSegment ("<" ++ nm ++ ">") =
        some (Except.ok (SegmentSchema.Value ⟨nm, SegmentType.String⟩)) :=
  ⟨by decide, fun nm hc hg => parseSchemaSegment_bracket nm hc hg⟩

/-- C8 witness: the default-type rule applied to the token `<name>`. -/
theorem dsl_pattern_matches_builder_witness :
    parseSchemaSegment ("<" ++ "name" ++ ">") =
      some (Except.ok (SegmentSchema.Value ⟨"name", SegmentType.String⟩)) :=
  dsl_pattern_matches_builder.2 "name" (by decide) (by decide)

end Structpath
